import Mathlib

/-!
Verification of the state-tracing function wrapper of `brainstate`
(`brainstate/transform/_make_jaxpr.py`).

The development shallowly embeds the wrapper `StatefulFunction`:

* user functions are embedded as first-order programs (`Prog`) over mutable
  state cells, with expressions (`Expr`) reading cells and arguments;
* the external JAX tracing machinery is embedded as a symbolic evaluator
  producing symbolic expressions (`SExpr`) over the trace artifact's formal
  inputs (flattened dynamic arguments followed by one synthetic input per
  accessed state cell, in access-record order);
* the `State` / `StateTrace` collaborators (module `brainstate._state`,
  whose source is not part of this tree) are modelled from the spec:
  a recording context that intercepts reads and writes, keeps first-seen
  order, upgrades a read record to a written record on a later write,
  snapshots original values, and restores them when tracing ends;
* the wrapper's cache tables, cache keys, replay (`jaxpr_call`), automatic
  write-back replay (`jaxpr_call_auto`), accessors and `clear_cache` are
  translated directly from `_make_jaxpr.py`.
-/

/-- Concrete value held by a state cell or passed as an argument
(a scalar array in the source; an integer here). -/
abbrev Val := Int

/-- Access categories recorded by the state tracer.  Modelled from the spec:
`StateTrace.types` holds `'read'` for read-only cells and `'write'` for
written cells; a later write upgrades a read record. -/
inductive AccessTy where
  | read
  | write
deriving DecidableEq, Repr

/-- Expressions of the embedded user language: literals, positional function
arguments, state-cell reads, and arithmetic. -/
inductive Expr where
  | lit : Val → Expr
  | arg : Nat → Expr
  | sread : Nat → Expr
  | add : Expr → Expr → Expr
  | mul : Expr → Expr → Expr
deriving DecidableEq, Repr

/-- Return value of an embedded user function: a pytree whose leaves are
either plain values or `State` objects returned directly (the latter is the
error case checked by `_wrapped_fun_to_eval`). -/
inductive Ret where
  | unit : Ret
  | expr : Expr → Ret
  | stateRef : Nat → Ret
  | pair : Ret → Ret → Ret
deriving DecidableEq, Repr

/-- An embedded user function: a sequence of state-cell writes followed by a
return value.  Reads occur inside the written expressions and the return
expressions. -/
inductive Prog where
  | ret : Ret → Prog
  | swrite : Nat → Expr → Prog → Prog
deriving DecidableEq, Repr

/-- The return tree at the end of a program. -/
def retOf : Prog → Ret
  | .ret r => r
  | .swrite _ _ k => retOf k

/-- Symbolic expressions over the trace artifact's formal inputs
(`invar i` is the i-th flattened input of the jaxpr). -/
inductive SExpr where
  | lit : Val → SExpr
  | invar : Nat → SExpr
  | add : SExpr → SExpr → SExpr
  | mul : SExpr → SExpr → SExpr
deriving DecidableEq, Repr

/-- Value currently held by a state cell: a concrete value, or a tracer
(symbolic value) while a trace is active.  Modelled from the spec: during
tracing the tracer intercepts cell contents and `end()` restores the
original concrete values. -/
inductive CellVal where
  | conc : Val → CellVal
  | sym : SExpr → CellVal
deriving DecidableEq, Repr

/-- The external store of state cells (cells are owned by caller code and
addressed by identity, here a natural number). -/
abbrev Store := Nat → CellVal

/-- A concrete store, used for direct (untraced) execution. -/
abbrev CStore := Nat → Val

/-- Extract a symbolic value from a cell (cells touched by an active trace
always hold tracers). -/
def symOf : CellVal → SExpr
  | .conc n => .lit n
  | .sym e => e

/-- Extract a concrete value from a cell (outside a trace, cells hold
concrete values). -/
def concOf : CellVal → Val
  | .conc n => n
  | .sym _ => 0

/-! ### Direct (untraced) semantics of the embedded language -/

/-- Direct evaluation of an expression against concrete cell values. -/
def evalExpr (args : List Val) (τ : CStore) : Expr → Val
  | .lit n => n
  | .arg i => args.getD i 0
  | .sread sid => τ sid
  | .add a b => evalExpr args τ a + evalExpr args τ b
  | .mul a b => evalExpr args τ a * evalExpr args τ b

/-- Direct result of a user function: a pytree of values and possibly
`State` references. -/
inductive OutVal where
  | unit : OutVal
  | val : Val → OutVal
  | stateRef : Nat → OutVal
  | pair : OutVal → OutVal → OutVal
deriving DecidableEq, Repr

/-- Direct evaluation of a return tree. -/
def evalRetD (args : List Val) (τ : CStore) : Ret → OutVal
  | .unit => .unit
  | .expr e => .val (evalExpr args τ e)
  | .stateRef s => .stateRef s
  | .pair a b => .pair (evalRetD args τ a) (evalRetD args τ b)

/-- Direct execution of a program: runs the writes in order against the
concrete store and returns the output together with the final store. -/
def runProg (args : List Val) : Prog → CStore → OutVal × CStore
  | .ret r, τ => (evalRetD args τ r, τ)
  | .swrite sid e k, τ => runProg args k (Function.update τ sid (evalExpr args τ e))

/-! ### Static/dynamic argument bookkeeping (`static_argnums`) -/

/-- The dynamic (non-static) arguments of a call, in position order,
starting the position count at `i₀`.  Mirrors the flattening of non-static
arguments in `_make_jaxpr` (via `argnums_partial`) and `jaxpr_call`. -/
def dynList (statics : List Nat) : Nat → List Val → List Val
  | _, [] => []
  | i₀, a :: rest =>
    if i₀ ∈ statics then dynList statics (i₀ + 1) rest
    else a :: dynList statics (i₀ + 1) rest

/-- Position of dynamic argument `i₀ + i` within the flattened dynamic
arguments, counting dynamic positions in `[i₀, i₀ + i)`. -/
def dynIdxFrom (statics : List Nat) : Nat → Nat → Nat
  | _, 0 => 0
  | i₀, i + 1 => (if i₀ ∈ statics then 0 else 1) + dynIdxFrom statics (i₀ + 1) i

/-! ### The state access tracer (modelled from the spec) -/

/-- One access record: the cell, its access category, and the original
cell value snapshotted at first access (used by the restoration step).
Modelled from the spec (§ State Access Tracer). -/
structure TraceRec where
  sid : Nat
  ty : AccessTy
  orig : CellVal
deriving DecidableEq, Repr

/-- The tracer state: the ordered access-record list and the external store
(touched cells hold tracers while the trace is active). -/
structure Tr where
  recs : List TraceRec
  store : Store

/-- The cells recorded so far, in first-seen order. -/
def recSids (tr : Tr) : List Nat := tr.recs.map (·.sid)

/-- Intercepted read of cell `sid`.  First access appends a `read` record,
snapshots the original value, and replaces the cell by a fresh synthetic
input (`_new_arg`); later accesses reuse the cell's current tracer.
Modelled from the spec. -/
def readCell (nDyn : Nat) (sid : Nat) (tr : Tr) : SExpr × Tr :=
  if sid ∈ recSids tr then (symOf (tr.store sid), tr)
  else
    let e : SExpr := .invar (nDyn + tr.recs.length)
    (e, ⟨tr.recs ++ [⟨sid, .read, tr.store sid⟩],
         Function.update tr.store sid (.sym e)⟩)

/-- Intercepted write of cell `sid`.  First access appends a `write` record
with the original value snapshot; a write to a previously read cell upgrades
its record to `write` in place.  The cell's tracer always reflects the most
recent write.  Modelled from the spec. -/
def writeCell (sid : Nat) (se : SExpr) (tr : Tr) : Tr :=
  if sid ∈ recSids tr then
    ⟨tr.recs.map (fun r => if r.sid = sid then ⟨r.sid, .write, r.orig⟩ else r),
     Function.update tr.store sid (.sym se)⟩
  else
    ⟨tr.recs ++ [⟨sid, .write, tr.store sid⟩],
     Function.update tr.store sid (.sym se)⟩

/-- Symbolic (traced) evaluation of an expression.  Static arguments are
baked in as constants; dynamic arguments become the corresponding formal
inputs; cell reads go through the tracer. -/
def traceExpr (statics : List Nat) (args : List Val) (nDyn : Nat) :
    Expr → Tr → SExpr × Tr
  | .lit n, tr => (.lit n, tr)
  | .arg i, tr =>
    (if i ∈ statics then .lit (args.getD i 0) else .invar (dynIdxFrom statics 0 i), tr)
  | .sread sid, tr => readCell nDyn sid tr
  | .add a b, tr =>
    let ra := traceExpr statics args nDyn a tr
    let rb := traceExpr statics args nDyn b ra.2
    (.add ra.1 rb.1, rb.2)
  | .mul a b, tr =>
    let ra := traceExpr statics args nDyn a tr
    let rb := traceExpr statics args nDyn b ra.2
    (.mul ra.1 rb.1, rb.2)

/-- Traced return tree: symbolic expressions at value leaves, `State`
references left in place (returning a state object performs no access). -/
inductive SRet where
  | unit : SRet
  | expr : SExpr → SRet
  | stateRef : Nat → SRet
  | pair : SRet → SRet → SRet
deriving DecidableEq, Repr

/-- Symbolic evaluation of a return tree. -/
def traceRet (statics : List Nat) (args : List Val) (nDyn : Nat) :
    Ret → Tr → SRet × Tr
  | .unit, tr => (.unit, tr)
  | .expr e, tr =>
    let r := traceExpr statics args nDyn e tr
    (.expr r.1, r.2)
  | .stateRef s, tr => (.stateRef s, tr)
  | .pair a b, tr =>
    let ra := traceRet statics args nDyn a tr
    let rb := traceRet statics args nDyn b ra.2
    (.pair ra.1 rb.1, rb.2)

/-- Symbolic execution of a program under the tracer. -/
def traceProg (statics : List Nat) (args : List Val) (nDyn : Nat) :
    Prog → Tr → SRet × Tr
  | .ret r, tr => traceRet statics args nDyn r tr
  | .swrite sid e k, tr =>
    let re := traceExpr statics args nDyn e tr
    traceProg statics args nDyn k (writeCell sid re.1 re.2)

/-- `StateTrace.recovery_original_values`: restore every touched cell to its
snapshotted original value.  Modelled from the spec. -/
def restore (tr : Tr) : Store :=
  tr.recs.foldl (fun s r => Function.update s r.sid r.orig) tr.store

/-! ### Flattening and unflattening of outputs -/

/-- Flattened symbolic leaves of a traced return tree (`jax.tree.flatten`).
Only used on trees without `State` leaves. -/
def flattenS : SRet → List SExpr
  | .unit => []
  | .expr e => [e]
  | .stateRef _ => []
  | .pair a b => flattenS a ++ flattenS b

/-- Tree structure of an output (the stored output tree descriptor). -/
inductive RShape where
  | unit : RShape
  | leaf : RShape
  | pair : RShape → RShape → RShape
deriving DecidableEq, Repr

/-- Structure of a traced return tree. -/
def shapeOfS : SRet → RShape
  | .unit => .unit
  | .expr _ => .leaf
  | .stateRef _ => .leaf
  | .pair a b => .pair (shapeOfS a) (shapeOfS b)

/-- A pure value pytree (the user-visible replay output). -/
inductive PTree where
  | unit : PTree
  | leaf : Val → PTree
  | pair : PTree → PTree → PTree
deriving DecidableEq, Repr

/-- Rebuild a value tree of the given structure from a flat value list,
returning the remaining values (`treedef.unflatten`). -/
def unflattenR : RShape → List Val → PTree × List Val
  | .unit, l => (.unit, l)
  | .leaf, [] => (.leaf 0, [])
  | .leaf, v :: rest => (.leaf v, rest)
  | .pair s1 s2, l =>
    let r1 := unflattenR s1 l
    let r2 := unflattenR s2 r1.2
    (.pair r1.1 r2.1, r2.2)

/-- First `State` leaf of a return tree, if any (the leaf scan of
`_wrapped_fun_to_eval` raises on the first `State` found). -/
def firstStateRefR : Ret → Option Nat
  | .unit => none
  | .expr _ => none
  | .stateRef s => some s
  | .pair a b =>
    match firstStateRefR a with
    | some s => some s
    | none => firstStateRefR b

/-- First `State` leaf of a traced return tree, if any. -/
def firstStateRefS : SRet → Option Nat
  | .unit => none
  | .expr _ => none
  | .stateRef s => some s
  | .pair a b =>
    match firstStateRefS a with
    | some s => some s
    | none => firstStateRefS b

/-- Whether a return tree contains a `State` leaf. -/
def hasStateLeaf : Ret → Bool
  | .unit => false
  | .expr _ => false
  | .stateRef _ => true
  | .pair a b => hasStateLeaf a || hasStateLeaf b

/-! ### Symbolic evaluation of the artifact -/

/-- Evaluation of a symbolic expression at concrete formal inputs
(`jax.core.eval_jaxpr` on one output). -/
def evalS (ins : List Val) : SExpr → Val
  | .lit n => n
  | .invar i => ins.getD i 0
  | .add a b => evalS ins a + evalS ins b
  | .mul a b => evalS ins a * evalS ins b

/-- The trace artifact: declared input count (flattened dynamic arguments
followed by one synthetic input per access record) and the flattened
symbolic outputs (function result leaves followed by one final value per
accessed cell, in record order). -/
structure Jaxpr where
  nIns : Nat
  outs : List SExpr
deriving DecidableEq, Repr

/-- The stored output tree descriptor: structure of the user-visible output
paired with the number of state outputs. -/
structure OutTreeDef where
  outShape : RShape
  nStates : Nat
deriving DecidableEq, Repr

/-! ### The wrapper `StatefulFunction` -/

/-- `cache_type` configuration (`None` or `'jit'`). -/
inductive CacheType where
  | none
  | jit
deriving DecidableEq, Repr

/-- A cache key: either the tuple of static-argument values (policy `None`),
or the triple of static values plus abstract descriptors of the flattened
dynamic positional and keyword arguments (policy `'jit'`; all embedded
values share one abstract descriptor, here `Unit`). -/
inductive CacheKey where
  | staticOnly : List Val → CacheKey
  | jitKey : List Val → List Unit → List Unit → CacheKey
deriving DecidableEq, Repr

/-- Association-list lookup keyed by cache keys (the Python dict). -/
def alook {β : Type} (k : CacheKey) : List (CacheKey × β) → Option β
  | [] => none
  | (k', v) :: rest => if k = k' then some v else alook k rest

/-- The error surface of the wrapper, translated from `_make_jaxpr.py`:
the "not traced" `ValueError` of the table accessors, the bare `KeyError`
of a raw dict lookup, the `ValueError` raised when a traced function
returns a `State`, the length-mismatch assertion of `jaxpr_call`, and the
three `TypeError`s of `_check_callable`. -/
inductive Err where
  | notTraced : CacheKey → Err
  | keyError : CacheKey → Err
  | stateReturn : Nat → Err
  | lengthMismatch : Err
  | typeErrorStaticmethod : Err
  | typeErrorNotCallable : Err
  | typeErrorGenerator : Err
deriving DecidableEq, Repr

/-- The wrapper state: configuration plus the four cache tables
(`_jaxpr`, `_out_shapes`, `_jaxpr_out_tree`, `_state_trace`). -/
structure SF where
  prog : Prog
  statics : List Nat
  cacheType : CacheType
  jaxprs : List (CacheKey × Jaxpr)
  outShapes : List (CacheKey × OutTreeDef)
  outTrees : List (CacheKey × OutTreeDef)
  stateTraces : List (CacheKey × List (Nat × AccessTy))

/-- `StatefulFunction.__init__`: empty cache tables. -/
def SF.init (p : Prog) (statics : List Nat) (ct : CacheType) : SF :=
  ⟨p, statics, ct, [], [], [], []⟩

/-- `StatefulFunction.get_arg_cache_key`. -/
def SF.getArgCacheKey (sf : SF) (args : List Val) : CacheKey :=
  match sf.cacheType with
  | .jit =>
    .jitKey ((args.enum.filter (fun pr => pr.1 ∈ sf.statics)).map Prod.snd)
      ((args.enum.filter (fun pr => pr.1 ∉ sf.statics)).map (fun _ => Unit.unit))
      []
  | .none => .staticOnly (sf.statics.filterMap (fun i => args[i]?))

/-- `StatefulFunction.get_jaxpr`. -/
def SF.getJaxpr (sf : SF) (key : CacheKey) : Except Err Jaxpr :=
  match alook key sf.jaxprs with
  | none => .error (.notTraced key)
  | some j => .ok j

/-- `StatefulFunction.get_out_shapes`. -/
def SF.getOutShapes (sf : SF) (key : CacheKey) : Except Err OutTreeDef :=
  match alook key sf.outShapes with
  | none => .error (.notTraced key)
  | some d => .ok d

/-- `StatefulFunction.get_out_treedef`. -/
def SF.getOutTreedef (sf : SF) (key : CacheKey) : Except Err OutTreeDef :=
  match alook key sf.outTrees with
  | none => .error (.notTraced key)
  | some d => .ok d

/-- `StatefulFunction.get_states`. -/
def SF.getStates (sf : SF) (key : CacheKey) : Except Err (List Nat) :=
  match alook key sf.stateTraces with
  | none => .error (.notTraced key)
  | some recs => .ok (recs.map Prod.fst)

/-- `StatefulFunction.get_read_states`: indexes `_state_trace` directly,
so an unknown key raises a bare `KeyError`. -/
def SF.getReadStates (sf : SF) (key : CacheKey) : Except Err (List Nat) :=
  match alook key sf.stateTraces with
  | none => .error (.keyError key)
  | some recs =>
    .ok ((recs.filter (fun pr => decide (pr.2 = AccessTy.read))).map Prod.fst)

/-- `StatefulFunction.get_write_states`: indexes `_state_trace` directly,
so an unknown key raises a bare `KeyError`. -/
def SF.getWriteStates (sf : SF) (key : CacheKey) : Except Err (List Nat) :=
  match alook key sf.stateTraces with
  | none => .error (.keyError key)
  | some recs =>
    .ok ((recs.filter (fun pr => decide (pr.2 = AccessTy.write))).map Prod.fst)

/-- `StatefulFunction.clear_cache`: empties the four tables. -/
def SF.clearCache (sf : SF) : SF :=
  { sf with jaxprs := [], outShapes := [], outTrees := [], stateTraces := [] }

/-- A complete trace of the wrapped program: the symbolic output and the
final tracer state, starting from an empty record list over the caller's
store. -/
def traceOutcome (p : Prog) (statics : List Nat) (args : List Val) (σ : Store) :
    SRet × Tr :=
  traceProg statics args (dynList statics 0 args).length p ⟨[], σ⟩

/-- `StatefulFunction.make_jaxpr`.  Returns the updated wrapper and store,
plus either the raised error or a flag telling whether a fresh trace was
performed (`false` means the cached entry was reused and the user function
was not executed).  On a trace failure the partially created
`_state_trace` entry is popped, leaving the wrapper unchanged, and the
failure is re-raised. -/
def SF.makeJaxpr (sf : SF) (σ : Store) (args : List Val) :
    (SF × Store) × Except Err Bool :=
  let key := sf.getArgCacheKey args
  match alook key sf.stateTraces with
  | some _ => ((sf, σ), .ok false)
  | none =>
    let res := traceOutcome sf.prog sf.statics args σ
    let σR := restore res.2
    match firstStateRefS res.1 with
    | some sid => ((sf, σR), .error (.stateReturn sid))
    | none =>
      (({ sf with
          stateTraces := (key, res.2.recs.map (fun r => (r.sid, r.ty))) :: sf.stateTraces,
          outTrees := (key, ⟨shapeOfS res.1, res.2.recs.length⟩) :: sf.outTrees,
          outShapes := (key, ⟨shapeOfS res.1, res.2.recs.length⟩) :: sf.outShapes,
          jaxprs := (key, ⟨(dynList sf.statics 0 args).length + res.2.recs.length,
                     flattenS res.1 ++
                       res.2.recs.map (fun r => symOf (res.2.store r.sid))⟩) ::
              sf.jaxprs }, σR), .ok true)

/-- `StatefulFunction.jaxpr_call`: replays the cached artifact at explicit
state values, returning the new state values and the user-visible output. -/
def SF.jaxprCall (sf : SF) (stateVals : List Val) (args : List Val) :
    Except Err (List Val × PTree) :=
  let key := sf.getArgCacheKey args
  match sf.getStates key with
  | .error e => .error e
  | .ok sids =>
    if stateVals.length = sids.length then
      match sf.getJaxpr key, sf.getOutTreedef key with
      | .ok jx, .ok td =>
        let ins := dynList sf.statics 0 args ++ stateVals
        let res := unflattenR td.outShape (jx.outs.map (evalS ins))
        let newVals := res.2.take td.nStates
        if newVals.length = stateVals.length then .ok (newVals, res.1)
        else .error .lengthMismatch
      | .error e, _ => .error e
      | _, .error e => .error e
    else .error .lengthMismatch

/-- Write the returned state values back into the recorded cells, in order
(the write-back loop of `jaxpr_call_auto`). -/
def writeBack (σ : Store) : List Nat → List Val → Store
  | [], _ => σ
  | _ :: _, [] => σ
  | sid :: sids, v :: vs => writeBack (Function.update σ sid (.conc v)) sids vs

/-- `StatefulFunction.jaxpr_call_auto`: reads the current values of the
recorded cells, replays, then writes the returned values back into the
same cells in order. -/
def SF.jaxprCallAuto (sf : SF) (σ : Store) (args : List Val) :
    Except Err (Store × PTree) :=
  let key := sf.getArgCacheKey args
  match sf.getStates key with
  | .error e => .error e
  | .ok sids =>
    match sf.jaxprCall (sids.map (fun sid => concOf (σ sid))) args with
    | .error e => .error e
    | .ok (newVals, out) => .ok (writeBack σ sids newVals, out)

/-! ### `_check_callable` and the plain `_make_jaxpr` entry point -/

/-- Shape of a Python callable as far as `_check_callable` inspects it. -/
structure PyFun where
  isStaticmethodObj : Bool
  callableFlag : Bool
  isGeneratorFunction : Bool
deriving DecidableEq, Repr

/-- `_check_callable`: rejects staticmethod objects, non-callables, and
generator functions, in that order. -/
def checkCallable (f : PyFun) : Except Err Unit :=
  if f.isStaticmethodObj then .error .typeErrorStaticmethod
  else if !f.callableFlag then .error .typeErrorNotCallable
  else if f.isGeneratorFunction then .error .typeErrorGenerator
  else .ok ()

/-- The underscore `_make_jaxpr` entry point applied to a target whose
callable shape is `meta` and whose body is `p`: validates the target with
`_check_callable` before any tracing, then traces and builds the artifact.
The boolean records that a trace was actually performed. -/
def mkJaxprDirect (meta : PyFun) (statics : List Nat) (p : Prog)
    (σ : Store) (args : List Val) : Except Err (Jaxpr × Bool) :=
  match checkCallable meta with
  | .error e => .error e
  | .ok _ =>
    let res := traceOutcome p statics args σ
    .ok (⟨(dynList statics 0 args).length + res.2.recs.length,
          flattenS res.1 ++ res.2.recs.map (fun r => symOf (res.2.store r.sid))⟩,
         true)

/-! ### Definitions for the verification layer -/

/-- `l₂` extends `l₁` on the right. -/
def ListExt {α : Type} (l₁ l₂ : List α) : Prop := ∃ t, l₂ = l₁ ++ t

/-- Invariant of the tracer relative to the pre-trace store `σ₀`: records
are duplicate-free, untouched cells still hold their original values, and
every snapshot equals the cell's pre-trace value. -/
def InvR (σ₀ : Store) (tr : Tr) : Prop :=
  (recSids tr).Nodup ∧
  (∀ sid, sid ∉ recSids tr → tr.store sid = σ₀ sid) ∧
  (∀ r ∈ tr.recs, r.orig = σ₀ r.sid)

/-- Well-formedness of argument references: every dynamic positional
argument used by the expression exists in the call. -/
def exprArgsOK (statics : List Nat) (n : Nat) : Expr → Bool
  | .lit _ => true
  | .arg i => decide (i ∈ statics) || decide (i < n)
  | .sread _ => true
  | .add a b => exprArgsOK statics n a && exprArgsOK statics n b
  | .mul a b => exprArgsOK statics n a && exprArgsOK statics n b

/-- Well-formedness of argument references in a return tree. -/
def retArgsOK (statics : List Nat) (n : Nat) : Ret → Bool
  | .unit => true
  | .expr e => exprArgsOK statics n e
  | .stateRef _ => true
  | .pair a b => retArgsOK statics n a && retArgsOK statics n b

/-- Well-formedness of argument references in a program. -/
def progArgsOK (statics : List Nat) (n : Nat) : Prog → Bool
  | .ret r => retArgsOK statics n r
  | .swrite _ e k => exprArgsOK statics n e && progArgsOK statics n k

/-- The flat replay inputs: flattened dynamic arguments followed by the
state values, exactly as `jaxpr_call` builds them. -/
def insOf (statics : List Nat) (args vals : List Val) : List Val :=
  dynList statics 0 args ++ vals

/-- Number of flattened dynamic arguments. -/
def nDynOf (statics : List Nat) (args : List Val) : Nat :=
  (dynList statics 0 args).length

/-- Correspondence between a traced output and a direct output: same tree,
with each symbolic leaf evaluating (at the replay inputs) to the direct
value, and state leaves matching exactly. -/
def matchOut (ins : List Val) : SRet → OutVal → Prop
  | .unit, .unit => True
  | .expr se, .val v => evalS ins se = v
  | .stateRef s, .stateRef s' => s = s'
  | .pair a b, .pair a' b' => matchOut ins a a' ∧ matchOut ins b b'
  | _, _ => False

/-- Simulation invariant between the symbolic tracer state and the direct
execution store `τ`: records are duplicate-free, cells not yet touched
still hold their replay-initial values, and every touched cell's tracer
evaluates (at the replay inputs) to the cell's direct value. -/
def SimInv (statics : List Nat) (args vals : List Val) (τ₀ : CStore)
    (τ : CStore) (tr : Tr) : Prop :=
  (recSids tr).Nodup ∧
  (∀ sid, sid ∉ recSids tr → τ sid = τ₀ sid) ∧
  (∀ r ∈ tr.recs, ∃ e, tr.store r.sid = CellVal.sym e ∧
     evalS (insOf statics args vals) e = τ r.sid)

/-- The state values supplied at replay match, position by position, the
replay-initial values of the cells that the remainder of the trace will
record between the current record count and that of `tr'`. -/
def Hfut (vals : List Val) (τ₀ : CStore) (tr tr' : Tr) : Prop :=
  ∀ j, tr.recs.length ≤ j → j < tr'.recs.length →
    vals.getD j 0 = τ₀ ((recSids tr').getD j 0)

/-- The value tree obtained by evaluating a traced output's symbolic leaves
at the replay inputs. -/
def ptreeOfS (ins : List Val) : SRet → PTree
  | .unit => .unit
  | .expr e => .leaf (evalS ins e)
  | .stateRef _ => .leaf 0
  | .pair a b => .pair (ptreeOfS ins a) (ptreeOfS ins b)

/-- A direct output as a pure value tree, defined when it has no `State`
leaf. -/
def toPTree : OutVal → Option PTree
  | .unit => some .unit
  | .val n => some (.leaf n)
  | .stateRef _ => none
  | .pair a b =>
    match toPTree a, toPTree b with
    | some x, some y => some (.pair x y)
    | _, _ => none

/-- The wrapper state produced by a successful fresh trace (the success
branch of `make_jaxpr`). -/
def tracedSF (sf : SF) (σ : Store) (args : List Val) : SF :=
  let key := sf.getArgCacheKey args
  let res := traceOutcome sf.prog sf.statics args σ
  { sf with
    stateTraces := (key, res.2.recs.map (fun r => (r.sid, r.ty))) :: sf.stateTraces,
    outTrees := (key, ⟨shapeOfS res.1, res.2.recs.length⟩) :: sf.outTrees,
    outShapes := (key, ⟨shapeOfS res.1, res.2.recs.length⟩) :: sf.outShapes,
    jaxprs := (key, ⟨(dynList sf.statics 0 args).length + res.2.recs.length,
               flattenS res.1 ++
                 res.2.recs.map (fun r => symOf (res.2.store r.sid))⟩) :: sf.jaxprs }

/-- Alignment of the four cache tables: a key is present in one table if
and only if it is present in all four. -/
def Aligned (sf : SF) : Prop :=
  ∀ k : CacheKey,
    ((alook k sf.jaxprs).isSome = (alook k sf.outShapes).isSome) ∧
    ((alook k sf.jaxprs).isSome = (alook k sf.outTrees).isSome) ∧
    ((alook k sf.jaxprs).isSome = (alook k sf.stateTraces).isSome)

/-- Wrapper states reachable through the public operations: construction,
`make_jaxpr` (succeeding or raising), and `clear_cache`; the accessors and
the replay entry points never mutate the wrapper. -/
inductive ReachableSF : SF → Prop where
  | init : ∀ (p : Prog) (statics : List Nat) (ct : CacheType),
      ReachableSF (SF.init p statics ct)
  | trace : ∀ (sf : SF) (σ : Store) (args : List Val), ReachableSF sf →
      ReachableSF ((sf.makeJaxpr σ args).1.1)
  | clear : ∀ (sf : SF), ReachableSF sf → ReachableSF sf.clearCache

/-- The spec's scenario function: `f(x) = s.set(x + s.get())` on cell 0. -/
def pScenario : Prog := .swrite 0 (.add (.arg 0) (.sread 0)) (.ret .unit)

/-- A concrete round-trip program: `s0 := x + s0; return s0`. -/
def pRoundTrip : Prog := .swrite 0 (.add (.arg 0) (.sread 0)) (.ret (.expr (.sread 0)))

/-- A program returning a `State` cell nested in a container. -/
def pStateReturn : Prog := .ret (.pair (.expr (.lit 1)) (.stateRef 3))

/-- A wrapper whose cache already holds an entry for the empty key. -/
def sfCached : SF :=
  ⟨.ret .unit, [], .none,
   [(.staticOnly [], ⟨0, []⟩)],
   [(.staticOnly [], ⟨.unit, 0⟩)],
   [(.staticOnly [], ⟨.unit, 0⟩)],
   [(.staticOnly [], [])]⟩

/-- A generator function's callable shape. -/
def badGenFun : PyFun := ⟨false, true, true⟩

/-! ### List helpers -/

theorem getD_append_left {α : Type} (d : α) :
    ∀ (l₁ l₂ : List α) (j : Nat), j < l₁.length →
      (l₁ ++ l₂).getD j d = l₁.getD j d := by
  intro l₁
  induction l₁ with
  | nil => intro l₂ j h; simp at h
  | cons a rest ih =>
    intro l₂ j h
    cases j with
    | zero => rfl
    | succ j' =>
      simp only [List.cons_append, List.getD_cons_succ]
      exact ih l₂ j' (by simpa using h)

theorem getD_append_right {α : Type} (d : α) :
    ∀ (l₁ l₂ : List α) (j : Nat),
      (l₁ ++ l₂).getD (l₁.length + j) d = l₂.getD j d := by
  intro l₁
  induction l₁ with
  | nil => intro l₂ j; simp
  | cons a rest ih =>
    intro l₂ j
    have hl : (a :: rest).length + j = (rest.length + j) + 1 := by
      simp only [List.length_cons]
      omega
    rw [List.cons_append, hl, List.getD_cons_succ]
    exact ih l₂ j

theorem getD_append_self {α : Type} (d : α) (l : List α) (a : α) :
    (l ++ [a]).getD l.length d = a := by
  have h := getD_append_right d l [a] 0
  rw [Nat.add_zero] at h
  rw [h]
  rfl

theorem listExt_refl {α : Type} (l : List α) : ListExt l l := ⟨[], by simp⟩

theorem listExt_trans {α : Type} {a b c : List α}
    (h₁ : ListExt a b) (h₂ : ListExt b c) : ListExt a c := by
  obtain ⟨t₁, rfl⟩ := h₁
  obtain ⟨t₂, rfl⟩ := h₂
  exact ⟨t₁ ++ t₂, by simp⟩

theorem listExt_length {α : Type} {a b : List α} (h : ListExt a b) :
    a.length ≤ b.length := by
  obtain ⟨t, rfl⟩ := h
  simp

theorem listExt_getD {α : Type} {a b : List α} (d : α) (h : ListExt a b)
    {j : Nat} (hj : j < a.length) : b.getD j d = a.getD j d := by
  obtain ⟨t, rfl⟩ := h
  exact getD_append_left d a t j hj

/-! ### Dynamic-argument indexing -/

theorem dynList_spec (statics : List Nat) :
    ∀ (args : List Val) (i₀ i : Nat), i < args.length → (i₀ + i) ∉ statics →
      dynIdxFrom statics i₀ i < (dynList statics i₀ args).length ∧
      (dynList statics i₀ args).getD (dynIdxFrom statics i₀ i) 0 = args.getD i 0 := by
  intro args
  induction args with
  | nil => intro i₀ i h; simp at h
  | cons a rest ih =>
    intro i₀ i hlen hdyn
    cases i with
    | zero =>
      have h0 : i₀ ∉ statics := by simpa using hdyn
      simp [dynList, dynIdxFrom, h0]
    | succ j =>
      have hdyn' : (i₀ + 1 + j) ∉ statics := by
        have : i₀ + (j + 1) = i₀ + 1 + j := by omega
        simpa [this] using hdyn
      have hlen' : j < rest.length := by simpa using hlen
      have hrec := ih (i₀ + 1) j hlen' hdyn'
      by_cases hs : i₀ ∈ statics
      · simpa [dynList, dynIdxFrom, hs] using hrec
      · have e1 : dynList statics i₀ (a :: rest) = a :: dynList statics (i₀ + 1) rest := by
          simp [dynList, hs]
        have e2 : dynIdxFrom statics i₀ (j + 1) = dynIdxFrom statics (i₀ + 1) j + 1 := by
          simp [dynIdxFrom, hs, Nat.add_comm]
        refine ⟨?_, ?_⟩
        · rw [e1, e2]
          simp only [List.length_cons]
          omega
        · rw [e1, e2, List.getD_cons_succ]
          exact hrec.2

/-! ### Record-list evolution of the tracer -/

theorem recSids_readCell (nDyn sid : Nat) (tr : Tr) :
    ListExt (recSids tr) (recSids (readCell nDyn sid tr).2) := by
  unfold readCell
  by_cases h : sid ∈ recSids tr
  · rw [if_pos h]
    exact listExt_refl _
  · rw [if_neg h]
    exact ⟨[sid], by simp [recSids]⟩

theorem recSids_writeCell (sid : Nat) (se : SExpr) (tr : Tr) :
    ListExt (recSids tr) (recSids (writeCell sid se tr)) := by
  unfold writeCell
  by_cases h : sid ∈ recSids tr
  · refine ⟨[], ?_⟩
    rw [if_pos h, List.append_nil]
    unfold recSids
    rw [List.map_map]
    apply List.map_congr_left
    intro r _
    by_cases hr : r.sid = sid <;> simp [hr]
  · rw [if_neg h]
    exact ⟨[sid], by simp [recSids]⟩

theorem recSids_traceExpr (statics : List Nat) (args : List Val) (nDyn : Nat) :
    ∀ (e : Expr) (tr : Tr),
      ListExt (recSids tr) (recSids (traceExpr statics args nDyn e tr).2) := by
  intro e
  induction e with
  | lit n => intro tr; exact listExt_refl _
  | arg i => intro tr; exact listExt_refl _
  | sread sid => intro tr; exact recSids_readCell nDyn sid tr
  | add a b iha ihb =>
    intro tr
    exact listExt_trans (iha tr) (ihb (traceExpr statics args nDyn a tr).2)
  | mul a b iha ihb =>
    intro tr
    exact listExt_trans (iha tr) (ihb (traceExpr statics args nDyn a tr).2)

theorem recSids_traceRet (statics : List Nat) (args : List Val) (nDyn : Nat) :
    ∀ (r : Ret) (tr : Tr),
      ListExt (recSids tr) (recSids (traceRet statics args nDyn r tr).2) := by
  intro r
  induction r with
  | unit => intro tr; exact listExt_refl _
  | expr e => intro tr; exact recSids_traceExpr statics args nDyn e tr
  | stateRef s => intro tr; exact listExt_refl _
  | pair a b iha ihb =>
    intro tr
    exact listExt_trans (iha tr) (ihb (traceRet statics args nDyn a tr).2)

theorem recSids_traceProg (statics : List Nat) (args : List Val) (nDyn : Nat) :
    ∀ (p : Prog) (tr : Tr),
      ListExt (recSids tr) (recSids (traceProg statics args nDyn p tr).2) := by
  intro p
  induction p with
  | ret r => intro tr; exact recSids_traceRet statics args nDyn r tr
  | swrite sid e k ih =>
    intro tr
    exact listExt_trans (recSids_traceExpr statics args nDyn e tr)
      (listExt_trans (recSids_writeCell sid _ _) (ih _))

/-! ### Restoration correctness (trace leaves real state untouched) -/

theorem recSids_writeCell_touched {sid : Nat} (se : SExpr) {tr : Tr}
    (h : sid ∈ recSids tr) : recSids (writeCell sid se tr) = recSids tr := by
  unfold writeCell
  rw [if_pos h]
  unfold recSids
  rw [List.map_map]
  apply List.map_congr_left
  intro r _
  by_cases hr : r.sid = sid <;> simp [hr]

theorem invR_readCell (σ₀ : Store) (nDyn sid : Nat) (tr : Tr) (h : InvR σ₀ tr) :
    InvR σ₀ (readCell nDyn sid tr).2 := by
  obtain ⟨hnd, hunt, horig⟩ := h
  unfold readCell
  by_cases hm : sid ∈ recSids tr
  · rw [if_pos hm]
    exact ⟨hnd, hunt, horig⟩
  · rw [if_neg hm]
    refine ⟨?_, ?_, ?_⟩
    · have : recSids ⟨tr.recs ++ [⟨sid, .read, tr.store sid⟩],
          Function.update tr.store sid (.sym (.invar (nDyn + tr.recs.length)))⟩ =
          recSids tr ++ [sid] := by simp [recSids]
      rw [this]
      simp [List.nodup_append, hnd, hm]
    · intro sid' hsid'
      have hne : sid' ≠ sid := by
        intro hcon
        apply hsid'
        subst hcon
        simp [recSids]
      have hold : sid' ∉ recSids tr := by
        intro hcon
        apply hsid'
        simp only [recSids] at hcon ⊢
        simp only [List.map_append]
        exact List.mem_append_left _ hcon
      simp only [Function.update]
      rw [dif_neg hne]
      exact hunt sid' hold
    · intro r hr
      simp only [List.mem_append, List.mem_singleton] at hr
      rcases hr with hr | hr
      · exact horig r hr
      · subst hr
        exact hunt sid hm

theorem invR_writeCell (σ₀ : Store) (sid : Nat) (se : SExpr) (tr : Tr)
    (h : InvR σ₀ tr) : InvR σ₀ (writeCell sid se tr) := by
  obtain ⟨hnd, hunt, horig⟩ := h
  by_cases hm : sid ∈ recSids tr
  · refine ⟨?_, ?_, ?_⟩
    · rw [recSids_writeCell_touched se hm]
      exact hnd
    · intro sid' hsid'
      rw [recSids_writeCell_touched se hm] at hsid'
      have hne : sid' ≠ sid := fun hcon => hsid' (hcon ▸ hm)
      unfold writeCell
      rw [if_pos hm]
      simp only [Function.update]
      rw [dif_neg hne]
      exact hunt sid' hsid'
    · intro r hr
      unfold writeCell at hr
      rw [if_pos hm] at hr
      simp only [List.mem_map] at hr
      obtain ⟨r', hr', hfr⟩ := hr
      by_cases hr'' : r'.sid = sid
      · rw [if_pos hr''] at hfr
        subst hfr
        exact horig r' hr'
      · rw [if_neg hr''] at hfr
        subst hfr
        exact horig r' hr'
  · unfold writeCell
    rw [if_neg hm]
    refine ⟨?_, ?_, ?_⟩
    · have : recSids ⟨tr.recs ++ [⟨sid, .write, tr.store sid⟩],
          Function.update tr.store sid (.sym se)⟩ = recSids tr ++ [sid] := by
        simp [recSids]
      rw [this]
      simp [List.nodup_append, hnd, hm]
    · intro sid' hsid'
      have hne : sid' ≠ sid := by
        intro hcon
        apply hsid'
        subst hcon
        simp [recSids]
      have hold : sid' ∉ recSids tr := by
        intro hcon
        apply hsid'
        simp only [recSids, List.map_append]
        exact List.mem_append_left _ hcon
      simp only [Function.update]
      rw [dif_neg hne]
      exact hunt sid' hold
    · intro r hr
      simp only [List.mem_append, List.mem_singleton] at hr
      rcases hr with hr | hr
      · exact horig r hr
      · subst hr
        exact hunt sid hm

theorem invR_traceExpr (σ₀ : Store) (statics : List Nat) (args : List Val)
    (nDyn : Nat) : ∀ (e : Expr) (tr : Tr), InvR σ₀ tr →
      InvR σ₀ (traceExpr statics args nDyn e tr).2 := by
  intro e
  induction e with
  | lit n => intro tr h; exact h
  | arg i => intro tr h; exact h
  | sread sid => intro tr h; exact invR_readCell σ₀ nDyn sid tr h
  | add a b iha ihb => intro tr h; exact ihb _ (iha tr h)
  | mul a b iha ihb => intro tr h; exact ihb _ (iha tr h)

theorem invR_traceRet (σ₀ : Store) (statics : List Nat) (args : List Val)
    (nDyn : Nat) : ∀ (r : Ret) (tr : Tr), InvR σ₀ tr →
      InvR σ₀ (traceRet statics args nDyn r tr).2 := by
  intro r
  induction r with
  | unit => intro tr h; exact h
  | expr e => intro tr h; exact invR_traceExpr σ₀ statics args nDyn e tr h
  | stateRef s => intro tr h; exact h
  | pair a b iha ihb => intro tr h; exact ihb _ (iha tr h)

theorem invR_traceProg (σ₀ : Store) (statics : List Nat) (args : List Val)
    (nDyn : Nat) : ∀ (p : Prog) (tr : Tr), InvR σ₀ tr →
      InvR σ₀ (traceProg statics args nDyn p tr).2 := by
  intro p
  induction p with
  | ret r => intro tr h; exact invR_traceRet σ₀ statics args nDyn r tr h
  | swrite sid e k ih =>
    intro tr h
    exact ih _ (invR_writeCell σ₀ sid _ _ (invR_traceExpr σ₀ statics args nDyn e tr h))

theorem restore_aux : ∀ (recs : List TraceRec) (s σ₀ : Store),
    (recs.map (·.sid)).Nodup →
    (∀ r ∈ recs, r.orig = σ₀ r.sid) →
    (∀ sid, sid ∉ recs.map (·.sid) → s sid = σ₀ sid) →
    ∀ sid, (recs.foldl (fun s r => Function.update s r.sid r.orig) s) sid = σ₀ sid := by
  intro recs
  induction recs with
  | nil =>
    intro s σ₀ _ _ hunt sid
    exact hunt sid (by simp)
  | cons r rest ih =>
    intro s σ₀ hnd horig hunt sid
    simp only [List.foldl_cons]
    apply ih (Function.update s r.sid r.orig) σ₀
    · exact (List.nodup_cons.mp (by simpa using hnd)).2
    · intro r' hr'
      exact horig r' (List.mem_cons_of_mem r hr')
    · intro sid' hsid'
      by_cases hs : sid' = r.sid
      · subst hs
        rw [Function.update_same]
        exact horig r (List.mem_cons_self r rest)
      · rw [Function.update_noteq hs]
        apply hunt
        simp only [List.map_cons, List.mem_cons]
        intro hcon
        rcases hcon with hcon | hcon
        · exact hs hcon
        · exact hsid' hcon

theorem restore_eq (σ₀ : Store) (tr : Tr) (h : InvR σ₀ tr) (sid : Nat) :
    restore tr sid = σ₀ sid := by
  obtain ⟨hnd, hunt, horig⟩ := h
  exact restore_aux tr.recs tr.store σ₀ hnd horig hunt sid

theorem invR_init (σ : Store) : InvR σ ⟨[], σ⟩ := by
  refine ⟨by simp [recSids], ?_, ?_⟩
  · intro _ _; rfl
  · intro r hr; simp at hr

theorem traceOutcome_restore (p : Prog) (statics : List Nat) (args : List Val)
    (σ : Store) (sid : Nat) :
    restore (traceOutcome p statics args σ).2 sid = σ sid :=
  restore_eq σ _ (invR_traceProg σ statics args _ p ⟨[], σ⟩ (invR_init σ)) sid

/-! ### State leaves of the traced output -/

theorem firstStateRefS_traceRet (statics : List Nat) (args : List Val)
    (nDyn : Nat) : ∀ (r : Ret) (tr : Tr),
      firstStateRefS (traceRet statics args nDyn r tr).1 = firstStateRefR r := by
  intro r
  induction r with
  | unit => intro tr; rfl
  | expr e => intro tr; rfl
  | stateRef s => intro tr; rfl
  | pair a b iha ihb =>
    intro tr
    simp only [traceRet, firstStateRefS, firstStateRefR, iha, ihb]

theorem firstStateRefS_traceProg (statics : List Nat) (args : List Val)
    (nDyn : Nat) : ∀ (p : Prog) (tr : Tr),
      firstStateRefS (traceProg statics args nDyn p tr).1 = firstStateRefR (retOf p) := by
  intro p
  induction p with
  | ret r => intro tr; exact firstStateRefS_traceRet statics args nDyn r tr
  | swrite sid e k ih => intro tr; exact ih _

theorem hasStateLeaf_iff_firstStateRef (r : Ret) :
    hasStateLeaf r = true ↔ (firstStateRefR r).isSome = true := by
  induction r with
  | unit => simp [hasStateLeaf, firstStateRefR]
  | expr e => simp [hasStateLeaf, firstStateRefR]
  | stateRef s => simp [hasStateLeaf, firstStateRefR]
  | pair a b iha ihb =>
    simp only [hasStateLeaf, firstStateRefR, Bool.or_eq_true, iha, ihb]
    cases h : firstStateRefR a <;> simp [h]

/-! ### Trace/replay simulation -/

theorem recSids_length (tr : Tr) : (recSids tr).length = tr.recs.length := by
  simp [recSids]

theorem hfut_left (vals : List Val) (τ₀ : CStore) {tr tr₁ tr₂ : Tr}
    (h : Hfut vals τ₀ tr tr₂)
    (hext : ListExt (recSids tr₁) (recSids tr₂)) : Hfut vals τ₀ tr tr₁ := by
  intro j hj hj'
  have hlen : tr₁.recs.length ≤ tr₂.recs.length := by
    have := listExt_length hext
    rwa [recSids_length, recSids_length] at this
  have hj₂ : j < tr₂.recs.length := lt_of_lt_of_le hj' hlen
  rw [h j hj hj₂]
  rw [listExt_getD 0 hext (by rwa [recSids_length])]

theorem hfut_right (vals : List Val) (τ₀ : CStore) {tr tr₁ tr₂ : Tr}
    (h : Hfut vals τ₀ tr tr₂)
    (hext : ListExt (recSids tr) (recSids tr₁)) : Hfut vals τ₀ tr₁ tr₂ := by
  intro j hj hj'
  have hlen : tr.recs.length ≤ tr₁.recs.length := by
    have := listExt_length hext
    rwa [recSids_length, recSids_length] at this
  exact h j (le_trans hlen hj) hj'

theorem sim_readCell (statics : List Nat) (args vals : List Val) (τ₀ : CStore)
    (τ : CStore) (tr : Tr) (sid : Nat)
    (hinv : SimInv statics args vals τ₀ τ tr)
    (hfut : Hfut vals τ₀ tr (readCell (nDynOf statics args) sid tr).2) :
    SimInv statics args vals τ₀ τ (readCell (nDynOf statics args) sid tr).2 ∧
    evalS (insOf statics args vals) (readCell (nDynOf statics args) sid tr).1 = τ sid := by
  obtain ⟨hnd, hunt, hsym⟩ := hinv
  by_cases hm : sid ∈ recSids tr
  · unfold readCell
    rw [if_pos hm]
    refine ⟨⟨hnd, hunt, hsym⟩, ?_⟩
    simp only [recSids, List.mem_map] at hm
    obtain ⟨r, hr, hrs⟩ := hm
    obtain ⟨e, hstore, heval⟩ := hsym r hr
    rw [← hrs, hstore]
    exact heval
  · have heq : readCell (nDynOf statics args) sid tr =
        (SExpr.invar (nDynOf statics args + tr.recs.length),
         ⟨tr.recs ++ [⟨sid, .read, tr.store sid⟩],
          Function.update tr.store sid
            (.sym (.invar (nDynOf statics args + tr.recs.length)))⟩) := by
      unfold readCell
      rw [if_neg hm]
    rw [heq] at hfut ⊢
    have hsids : recSids (⟨tr.recs ++ [⟨sid, .read, tr.store sid⟩],
        Function.update tr.store sid
          (.sym (.invar (nDynOf statics args + tr.recs.length)))⟩ : Tr) =
        recSids tr ++ [sid] := by simp [recSids]
    have hval : evalS (insOf statics args vals)
        (SExpr.invar (nDynOf statics args + tr.recs.length)) = τ sid := by
      have h1 : evalS (insOf statics args vals)
          (SExpr.invar (nDynOf statics args + tr.recs.length)) =
          vals.getD tr.recs.length 0 := by
        simp only [evalS, insOf, nDynOf]
        exact getD_append_right 0 (dynList statics 0 args) vals tr.recs.length
      have h2 : vals.getD tr.recs.length 0 = τ₀ sid := by
        have := hfut tr.recs.length (le_refl _) (by simp)
        rw [this, hsids]
        have : (recSids tr ++ [sid]).getD tr.recs.length 0 = sid := by
          have := getD_append_self 0 (recSids tr) sid
          rwa [recSids_length] at this
        rw [this]
      rw [h1, h2, hunt sid hm]
    refine ⟨⟨?_, ?_, ?_⟩, hval⟩
    · rw [hsids]
      simp [List.nodup_append, hnd, hm]
    · intro sid' hsid'
      rw [hsids] at hsid'
      apply hunt
      intro hcon
      exact hsid' (List.mem_append_left _ hcon)
    · intro r hr
      simp only [List.mem_append, List.mem_singleton] at hr
      rcases hr with hr | hr
      · obtain ⟨e, hstore, heval⟩ := hsym r hr
        refine ⟨e, ?_, heval⟩
        have hne : r.sid ≠ sid := by
          intro hcon
          apply hm
          rw [← hcon]
          exact List.mem_map_of_mem _ hr
        simp only
        rw [Function.update_noteq hne]
        exact hstore
      · subst hr
        refine ⟨.invar (nDynOf statics args + tr.recs.length), ?_, hval⟩
        simp only
        rw [Function.update_same]

theorem sim_writeCell (statics : List Nat) (args vals : List Val) (τ₀ : CStore)
    (τ : CStore) (tr : Tr) (sid : Nat) (se : SExpr) (v : Val)
    (hinv : SimInv statics args vals τ₀ τ tr)
    (hse : evalS (insOf statics args vals) se = v) :
    SimInv statics args vals τ₀ (Function.update τ sid v) (writeCell sid se tr) := by
  obtain ⟨hnd, hunt, hsym⟩ := hinv
  by_cases hm : sid ∈ recSids tr
  · refine ⟨?_, ?_, ?_⟩
    · rw [recSids_writeCell_touched se hm]
      exact hnd
    · intro sid' hsid'
      rw [recSids_writeCell_touched se hm] at hsid'
      have hne : sid' ≠ sid := fun hcon => hsid' (hcon ▸ hm)
      rw [Function.update_noteq hne]
      exact hunt sid' hsid'
    · intro r hr
      unfold writeCell at hr ⊢
      rw [if_pos hm] at hr ⊢
      simp only [List.mem_map] at hr
      obtain ⟨r', hr', hfr⟩ := hr
      by_cases hr'' : r'.sid = sid
      · rw [if_pos hr''] at hfr
        subst hfr
        refine ⟨se, ?_, ?_⟩
        · simp only
          rw [hr'', Function.update_same]
        · simp only
          rw [hr'', Function.update_same]
          exact hse
      · rw [if_neg hr''] at hfr
        subst hfr
        obtain ⟨e, hstore, heval⟩ := hsym r' hr'
        refine ⟨e, ?_, ?_⟩
        · simp only
          rw [Function.update_noteq hr'']
          exact hstore
        · rw [Function.update_noteq hr'']
          exact heval
  · unfold writeCell
    rw [if_neg hm]
    have hsids : recSids (⟨tr.recs ++ [⟨sid, .write, tr.store sid⟩],
        Function.update tr.store sid (.sym se)⟩ : Tr) = recSids tr ++ [sid] := by
      simp [recSids]
    refine ⟨?_, ?_, ?_⟩
    · rw [hsids]
      simp [List.nodup_append, hnd, hm]
    · intro sid' hsid'
      rw [hsids] at hsid'
      have hne : sid' ≠ sid := by
        intro hcon
        exact hsid' (by rw [hcon]; exact List.mem_append_right _ (by simp))
      rw [Function.update_noteq hne]
      apply hunt
      intro hcon
      exact hsid' (List.mem_append_left _ hcon)
    · intro r hr
      simp only [List.mem_append, List.mem_singleton] at hr
      rcases hr with hr | hr
      · obtain ⟨e, hstore, heval⟩ := hsym r hr
        have hne : r.sid ≠ sid := by
          intro hcon
          apply hm
          rw [← hcon]
          exact List.mem_map_of_mem _ hr
        refine ⟨e, ?_, ?_⟩
        · simp only
          rw [Function.update_noteq hne]
          exact hstore
        · rw [Function.update_noteq hne]
          exact heval
      · subst hr
        refine ⟨se, ?_, ?_⟩
        · simp only
          rw [Function.update_same]
        · simp only
          rw [Function.update_same]
          exact hse


theorem sim_traceExpr (statics : List Nat) (args vals : List Val) (τ₀ : CStore) :
    ∀ (e : Expr) (tr : Tr) (τ : CStore),
      exprArgsOK statics args.length e = true →
      SimInv statics args vals τ₀ τ tr →
      Hfut vals τ₀ tr (traceExpr statics args (nDynOf statics args) e tr).2 →
      SimInv statics args vals τ₀ τ (traceExpr statics args (nDynOf statics args) e tr).2 ∧
      evalS (insOf statics args vals)
          (traceExpr statics args (nDynOf statics args) e tr).1 = evalExpr args τ e := by
  intro e
  induction e with
  | lit n =>
    intro tr τ _ hinv _
    exact ⟨hinv, rfl⟩
  | arg i =>
    intro tr τ hok hinv _
    refine ⟨hinv, ?_⟩
    by_cases hs : i ∈ statics
    · have : (traceExpr statics args (nDynOf statics args) (.arg i) tr).1 =
          SExpr.lit (args.getD i 0) := by
        simp [traceExpr, hs]
      rw [this]
      rfl
    · have hlt : i < args.length := by
        simp only [exprArgsOK, Bool.or_eq_true, decide_eq_true_eq] at hok
        rcases hok with h | h
        · exact absurd h hs
        · exact h
      have hzi : (0 + i) ∉ statics := by simpa using hs
      have hspec := dynList_spec statics args 0 i hlt hzi
      have : (traceExpr statics args (nDynOf statics args) (.arg i) tr).1 =
          SExpr.invar (dynIdxFrom statics 0 i) := by
        simp [traceExpr, hs]
      rw [this]
      show (insOf statics args vals).getD (dynIdxFrom statics 0 i) 0 = args.getD i 0
      unfold insOf
      rw [getD_append_left 0 _ _ _ hspec.1]
      exact hspec.2
  | sread sid =>
    intro tr τ _ hinv hfut
    exact sim_readCell statics args vals τ₀ τ tr sid hinv hfut
  | add a b iha ihb =>
    intro tr τ hok hinv hfut
    simp only [exprArgsOK, Bool.and_eq_true] at hok
    have hfut' : Hfut vals τ₀ tr
        (traceExpr statics args (nDynOf statics args) b
          (traceExpr statics args (nDynOf statics args) a tr).2).2 := hfut
    have hextA := recSids_traceExpr statics args (nDynOf statics args) a tr
    have hextB := recSids_traceExpr statics args (nDynOf statics args) b
      (traceExpr statics args (nDynOf statics args) a tr).2
    have hfutA : Hfut vals τ₀ tr
        (traceExpr statics args (nDynOf statics args) a tr).2 :=
      hfut_left vals τ₀ hfut' hextB
    obtain ⟨hinvA, hevalA⟩ := iha tr τ hok.1 hinv hfutA
    have hfutB : Hfut vals τ₀
        (traceExpr statics args (nDynOf statics args) a tr).2
        (traceExpr statics args (nDynOf statics args) b
          (traceExpr statics args (nDynOf statics args) a tr).2).2 :=
      hfut_right vals τ₀ hfut' hextA
    obtain ⟨hinvB, hevalB⟩ := ihb _ τ hok.2 hinvA hfutB
    refine ⟨hinvB, ?_⟩
    have hfst : evalS (insOf statics args vals)
        (traceExpr statics args (nDynOf statics args) (.add a b) tr).1 =
        evalS (insOf statics args vals)
          (traceExpr statics args (nDynOf statics args) a tr).1 +
        evalS (insOf statics args vals)
          (traceExpr statics args (nDynOf statics args) b
            (traceExpr statics args (nDynOf statics args) a tr).2).1 := rfl
    rw [hfst, hevalA, hevalB]
    rfl
  | mul a b iha ihb =>
    intro tr τ hok hinv hfut
    simp only [exprArgsOK, Bool.and_eq_true] at hok
    have hfut' : Hfut vals τ₀ tr
        (traceExpr statics args (nDynOf statics args) b
          (traceExpr statics args (nDynOf statics args) a tr).2).2 := hfut
    have hextA := recSids_traceExpr statics args (nDynOf statics args) a tr
    have hextB := recSids_traceExpr statics args (nDynOf statics args) b
      (traceExpr statics args (nDynOf statics args) a tr).2
    have hfutA : Hfut vals τ₀ tr
        (traceExpr statics args (nDynOf statics args) a tr).2 :=
      hfut_left vals τ₀ hfut' hextB
    obtain ⟨hinvA, hevalA⟩ := iha tr τ hok.1 hinv hfutA
    have hfutB : Hfut vals τ₀
        (traceExpr statics args (nDynOf statics args) a tr).2
        (traceExpr statics args (nDynOf statics args) b
          (traceExpr statics args (nDynOf statics args) a tr).2).2 :=
      hfut_right vals τ₀ hfut' hextA
    obtain ⟨hinvB, hevalB⟩ := ihb _ τ hok.2 hinvA hfutB
    refine ⟨hinvB, ?_⟩
    have hfst : evalS (insOf statics args vals)
        (traceExpr statics args (nDynOf statics args) (.mul a b) tr).1 =
        evalS (insOf statics args vals)
          (traceExpr statics args (nDynOf statics args) a tr).1 *
        evalS (insOf statics args vals)
          (traceExpr statics args (nDynOf statics args) b
            (traceExpr statics args (nDynOf statics args) a tr).2).1 := rfl
    rw [hfst, hevalA, hevalB]
    rfl

theorem sim_traceRet (statics : List Nat) (args vals : List Val) (τ₀ : CStore) :
    ∀ (r : Ret) (tr : Tr) (τ : CStore),
      retArgsOK statics args.length r = true →
      SimInv statics args vals τ₀ τ tr →
      Hfut vals τ₀ tr (traceRet statics args (nDynOf statics args) r tr).2 →
      SimInv statics args vals τ₀ τ (traceRet statics args (nDynOf statics args) r tr).2 ∧
      matchOut (insOf statics args vals)
        (traceRet statics args (nDynOf statics args) r tr).1 (evalRetD args τ r) := by
  intro r
  induction r with
  | unit =>
    intro tr τ _ hinv _
    exact ⟨hinv, trivial⟩
  | expr e =>
    intro tr τ hok hinv hfut
    have := sim_traceExpr statics args vals τ₀ e tr τ hok hinv hfut
    exact ⟨this.1, this.2⟩
  | stateRef s =>
    intro tr τ _ hinv _
    exact ⟨hinv, rfl⟩
  | pair a b iha ihb =>
    intro tr τ hok hinv hfut
    simp only [retArgsOK, Bool.and_eq_true] at hok
    have hfut' : Hfut vals τ₀ tr
        (traceRet statics args (nDynOf statics args) b
          (traceRet statics args (nDynOf statics args) a tr).2).2 := hfut
    have hextA := recSids_traceRet statics args (nDynOf statics args) a tr
    have hextB := recSids_traceRet statics args (nDynOf statics args) b
      (traceRet statics args (nDynOf statics args) a tr).2
    have hfutA : Hfut vals τ₀ tr
        (traceRet statics args (nDynOf statics args) a tr).2 :=
      hfut_left vals τ₀ hfut' hextB
    obtain ⟨hinvA, hmatchA⟩ := iha tr τ hok.1 hinv hfutA
    have hfutB : Hfut vals τ₀
        (traceRet statics args (nDynOf statics args) a tr).2
        (traceRet statics args (nDynOf statics args) b
          (traceRet statics args (nDynOf statics args) a tr).2).2 :=
      hfut_right vals τ₀ hfut' hextA
    obtain ⟨hinvB, hmatchB⟩ := ihb _ τ hok.2 hinvA hfutB
    exact ⟨hinvB, hmatchA, hmatchB⟩

theorem sim_traceProg (statics : List Nat) (args vals : List Val) (τ₀ : CStore) :
    ∀ (p : Prog) (tr : Tr) (τ : CStore),
      progArgsOK statics args.length p = true →
      SimInv statics args vals τ₀ τ tr →
      Hfut vals τ₀ tr (traceProg statics args (nDynOf statics args) p tr).2 →
      SimInv statics args vals τ₀ (runProg args p τ).2
        (traceProg statics args (nDynOf statics args) p tr).2 ∧
      matchOut (insOf statics args vals)
        (traceProg statics args (nDynOf statics args) p tr).1 (runProg args p τ).1 := by
  intro p
  induction p with
  | ret r =>
    intro tr τ hok hinv hfut
    exact sim_traceRet statics args vals τ₀ r tr τ hok hinv hfut
  | swrite sid e k ih =>
    intro tr τ hok hinv hfut
    simp only [progArgsOK, Bool.and_eq_true] at hok
    have hfut' : Hfut vals τ₀ tr
        (traceProg statics args (nDynOf statics args) k
          (writeCell sid (traceExpr statics args (nDynOf statics args) e tr).1
            (traceExpr statics args (nDynOf statics args) e tr).2)).2 := hfut
    have hextE := recSids_traceExpr statics args (nDynOf statics args) e tr
    have hextW := recSids_writeCell sid
      (traceExpr statics args (nDynOf statics args) e tr).1
      (traceExpr statics args (nDynOf statics args) e tr).2
    have hextK := recSids_traceProg statics args (nDynOf statics args) k
      (writeCell sid (traceExpr statics args (nDynOf statics args) e tr).1
        (traceExpr statics args (nDynOf statics args) e tr).2)
    have hfutE : Hfut vals τ₀ tr
        (traceExpr statics args (nDynOf statics args) e tr).2 :=
      hfut_left vals τ₀ hfut' (listExt_trans hextW hextK)
    obtain ⟨hinvE, hevalE⟩ :=
      sim_traceExpr statics args vals τ₀ e tr τ hok.1 hinv hfutE
    have hinvW := sim_writeCell statics args vals τ₀ τ
      (traceExpr statics args (nDynOf statics args) e tr).2 sid
      (traceExpr statics args (nDynOf statics args) e tr).1
      (evalExpr args τ e) hinvE hevalE
    have hfutK : Hfut vals τ₀
        (writeCell sid (traceExpr statics args (nDynOf statics args) e tr).1
          (traceExpr statics args (nDynOf statics args) e tr).2)
        (traceProg statics args (nDynOf statics args) k
          (writeCell sid (traceExpr statics args (nDynOf statics args) e tr).1
            (traceExpr statics args (nDynOf statics args) e tr).2)).2 :=
      hfut_right vals τ₀ hfut' (listExt_trans hextE hextW)
    exact ih _ (Function.update τ sid (evalExpr args τ e)) hok.2 hinvW hfutK

/-! ### Output reconstruction -/

theorem firstStateRefS_pair_none {a b : SRet}
    (h : firstStateRefS (.pair a b) = none) :
    firstStateRefS a = none ∧ firstStateRefS b = none := by
  unfold firstStateRefS at h
  cases ha : firstStateRefS a with
  | none =>
    rw [ha] at h
    exact ⟨rfl, h⟩
  | some s =>
    rw [ha] at h
    exact absurd h (by simp)

theorem unflatten_flatten (ins : List Val) :
    ∀ (s : SRet), firstStateRefS s = none → ∀ (rest : List Val),
      unflattenR (shapeOfS s) ((flattenS s).map (evalS ins) ++ rest) =
        (ptreeOfS ins s, rest) := by
  intro s
  induction s with
  | unit =>
    intro _ rest
    rfl
  | expr e =>
    intro _ rest
    rfl
  | stateRef s =>
    intro h
    exact absurd h (by simp [firstStateRefS])
  | pair a b iha ihb =>
    intro h rest
    obtain ⟨ha, hb⟩ := firstStateRefS_pair_none h
    have hsplit : (flattenS (.pair a b)).map (evalS ins) ++ rest =
        (flattenS a).map (evalS ins) ++ ((flattenS b).map (evalS ins) ++ rest) := by
      simp [flattenS, List.map_append, List.append_assoc]
    rw [hsplit]
    show unflattenR (.pair (shapeOfS a) (shapeOfS b)) _ = _
    simp only [unflattenR, iha ha, ihb hb, ptreeOfS]

theorem matchOut_toPTree (ins : List Val) :
    ∀ (s : SRet) (o : OutVal), matchOut ins s o → firstStateRefS s = none →
      toPTree o = some (ptreeOfS ins s) := by
  intro s
  induction s with
  | unit =>
    intro o hm _
    cases o with
    | unit => rfl
    | val v => exact absurd hm (by simp [matchOut])
    | stateRef t => exact absurd hm (by simp [matchOut])
    | pair x y => exact absurd hm (by simp [matchOut])
  | expr e =>
    intro o hm _
    cases o with
    | val v =>
      simp only [matchOut] at hm
      simp [toPTree, ptreeOfS, hm]
    | unit => exact absurd hm (by simp [matchOut])
    | stateRef t => exact absurd hm (by simp [matchOut])
    | pair x y => exact absurd hm (by simp [matchOut])
  | stateRef s =>
    intro o hm hns
    exact absurd hns (by simp [firstStateRefS])
  | pair a b iha ihb =>
    intro o hm hns
    obtain ⟨ha, hb⟩ := firstStateRefS_pair_none hns
    cases o with
    | pair x y =>
      obtain ⟨hma, hmb⟩ := hm
      have h1 := iha x hma ha
      have h2 := ihb y hmb hb
      simp [toPTree, h1, h2, ptreeOfS]
    | unit => exact absurd hm (by simp [matchOut])
    | val v => exact absurd hm (by simp [matchOut])
    | stateRef t => exact absurd hm (by simp [matchOut])

theorem finals_eval (statics : List Nat) (args vals : List Val) (τ₀ τ : CStore)
    (tr : Tr) (hinv : SimInv statics args vals τ₀ τ tr) :
    (tr.recs.map (fun r => symOf (tr.store r.sid))).map
        (evalS (insOf statics args vals)) = (recSids tr).map τ := by
  obtain ⟨_, _, hsym⟩ := hinv
  unfold recSids
  rw [List.map_map, List.map_map]
  apply List.map_congr_left
  intro r hr
  obtain ⟨e, hstore, heval⟩ := hsym r hr
  simp only [Function.comp]
  rw [hstore]
  exact heval

theorem alook_cons_self {β : Type} (k : CacheKey) (v : β) (l : List (CacheKey × β)) :
    alook k ((k, v) :: l) = some v := by
  unfold alook
  rw [if_pos rfl]

theorem makeJaxpr_fresh (sf : SF) (σ : Store) (args : List Val)
    (hfresh : alook (sf.getArgCacheKey args) sf.stateTraces = none)
    (hns : firstStateRefS (traceOutcome sf.prog sf.statics args σ).1 = none) :
    sf.makeJaxpr σ args =
      ((tracedSF sf σ args, restore (traceOutcome sf.prog sf.statics args σ).2),
       .ok true) := by
  unfold SF.makeJaxpr tracedSF
  simp only [hfresh, hns]

/-- C1: for every function that is pure given its state cells (an embedded
program), after a successful trace via `make_jaxpr`, replaying the cached
artifact with `jaxpr_call` at the recorded states' values and the same
arguments returns the same user-visible output and the same new state
values as directly executing the function with those state values
pre-loaded: trace followed by replay is observationally equivalent to
direct execution. -/
theorem c1_trace_replay_roundtrip
    (p : Prog) (statics : List Nat) (args : List Val) (σ : Store)
    (τ : CStore) (vals : List Val) (sids : List Nat)
    (hwf : progArgsOK statics args.length p = true)
    (hns : hasStateLeaf (retOf p) = false)
    (hst : (((SF.init p statics CacheType.none).makeJaxpr σ args).1.1).getStates
        ((SF.init p statics CacheType.none).getArgCacheKey args) = .ok sids)
    (hlen : vals.length = sids.length)
    (hvals : ∀ j, j < sids.length → τ (sids.getD j 0) = vals.getD j 0) :
    ∃ out, toPTree (runProg args p τ).1 = some out ∧
      (((SF.init p statics CacheType.none).makeJaxpr σ args).1.1).jaxprCall vals args =
        .ok (sids.map (runProg args p τ).2, out) := by
  -- the traced output has no state leaf
  have hns' : firstStateRefS (traceOutcome p statics args σ).1 = none := by
    unfold traceOutcome
    rw [firstStateRefS_traceProg]
    cases hfs : firstStateRefR (retOf p) with
    | none => rfl
    | some s =>
      exfalso
      have hsome : (firstStateRefR (retOf p)).isSome = true := by rw [hfs]; rfl
      have := (hasStateLeaf_iff_firstStateRef (retOf p)).mpr hsome
      rw [hns] at this
      exact Bool.noConfusion this
  have hfresh : alook ((SF.init p statics CacheType.none).getArgCacheKey args)
      (SF.init p statics CacheType.none).stateTraces = none := rfl
  have hmj := makeJaxpr_fresh (SF.init p statics CacheType.none) σ args hfresh hns'
  -- transport the getStates hypothesis to the explicit traced wrapper
  have hst₁ := hst
  rw [hmj] at hst₁
  have hst₂ : (tracedSF (SF.init p statics CacheType.none) σ args).getStates
      ((SF.init p statics CacheType.none).getArgCacheKey args) = .ok sids := hst₁
  have hgs : (tracedSF (SF.init p statics CacheType.none) σ args).getStates
      ((SF.init p statics CacheType.none).getArgCacheKey args) =
      .ok (recSids (traceOutcome p statics args σ).2) := by
    unfold tracedSF SF.getStates
    simp only [alook_cons_self, List.map_map]
    rfl
  have hsids : recSids (traceOutcome p statics args σ).2 = sids := by
    have h := hgs.symm.trans hst₂
    injection h
  -- run the simulation
  have hinv0 : SimInv statics args vals τ τ ⟨[], σ⟩ := by
    refine ⟨by simp [recSids], fun _ _ => rfl, fun r hr => absurd hr (by simp)⟩
  have hfut0 : Hfut vals τ (⟨[], σ⟩ : Tr)
      (traceProg statics args (nDynOf statics args) p ⟨[], σ⟩).2 := by
    intro j _ hj'
    have hjlen : j < sids.length := by
      rw [← hsids, recSids_length]
      exact hj'
    have := hvals j hjlen
    rw [← hsids] at this
    exact this.symm
  obtain ⟨hinvF, hmatch⟩ :=
    sim_traceProg statics args vals τ p ⟨[], σ⟩ τ hwf hinv0 hfut0
  have hmatch' : matchOut (insOf statics args vals)
      (traceOutcome p statics args σ).1 (runProg args p τ).1 := hmatch
  have hinvF' : SimInv statics args vals τ (runProg args p τ).2
      (traceOutcome p statics args σ).2 := hinvF
  -- the direct output is a pure value tree
  have hout := matchOut_toPTree (insOf statics args vals)
    (traceOutcome p statics args σ).1 (runProg args p τ).1 hmatch' hns'
  refine ⟨ptreeOfS (insOf statics args vals) (traceOutcome p statics args σ).1,
    hout, ?_⟩
  rw [hmj]
  show (tracedSF (SF.init p statics CacheType.none) σ args).jaxprCall vals args = _
  -- accessor equalities on the traced wrapper
  have hkk : (tracedSF (SF.init p statics CacheType.none) σ args).getArgCacheKey args =
      (SF.init p statics CacheType.none).getArgCacheKey args := rfl
  have hgj : (tracedSF (SF.init p statics CacheType.none) σ args).getJaxpr
      ((SF.init p statics CacheType.none).getArgCacheKey args) =
      .ok ⟨(dynList statics 0 args).length + (traceOutcome p statics args σ).2.recs.length,
           flattenS (traceOutcome p statics args σ).1 ++
             (traceOutcome p statics args σ).2.recs.map
               (fun r => symOf ((traceOutcome p statics args σ).2.store r.sid))⟩ := by
    unfold tracedSF SF.getJaxpr
    simp only [alook_cons_self]
    rfl
  have hgt : (tracedSF (SF.init p statics CacheType.none) σ args).getOutTreedef
      ((SF.init p statics CacheType.none).getArgCacheKey args) =
      .ok ⟨shapeOfS (traceOutcome p statics args σ).1,
           (traceOutcome p statics args σ).2.recs.length⟩ := by
    unfold tracedSF SF.getOutTreedef
    simp only [alook_cons_self]
    rfl
  have hlen' : vals.length = sids.length := hlen
  -- evaluate the replay
  simp only [SF.jaxprCall, hkk, hst₂, hgj, hgt]
  rw [if_pos hlen']
  have hinseq : dynList (tracedSF (SF.init p statics CacheType.none) σ args).statics 0 args
      ++ vals = insOf statics args vals := rfl
  rw [hinseq]
  have hmapapp : (flattenS (traceOutcome p statics args σ).1 ++
      (traceOutcome p statics args σ).2.recs.map
        (fun r => symOf ((traceOutcome p statics args σ).2.store r.sid))).map
      (evalS (insOf statics args vals)) =
      (flattenS (traceOutcome p statics args σ).1).map (evalS (insOf statics args vals)) ++
      ((traceOutcome p statics args σ).2.recs.map
        (fun r => symOf ((traceOutcome p statics args σ).2.store r.sid))).map
        (evalS (insOf statics args vals)) := List.map_append _ _ _
  rw [hmapapp]
  rw [finals_eval statics args vals τ (runProg args p τ).2
    (traceOutcome p statics args σ).2 hinvF']
  rw [unflatten_flatten (insOf statics args vals) (traceOutcome p statics args σ).1 hns']
  simp only
  have htake : ((recSids (traceOutcome p statics args σ).2).map (runProg args p τ).2).take
      (traceOutcome p statics args σ).2.recs.length =
      (recSids (traceOutcome p statics args σ).2).map (runProg args p τ).2 := by
    have hl : ((recSids (traceOutcome p statics args σ).2).map (runProg args p τ).2).length =
        (traceOutcome p statics args σ).2.recs.length := by
      rw [List.length_map, recSids_length]
    rw [← hl, List.take_length]
  rw [htake, hsids]
  rw [if_pos (by rw [List.length_map]; exact hlen.symm)]

/-- C6: tracing is side-effect-free on real state: when `make_jaxpr`
completes (cached no-op, trace failure, or success), every state cell —
touched or not — holds exactly the value it held before the call; only the
replay write-back path commits new values. -/
theorem c6_trace_restores_state (sf : SF) (σ : Store) (args : List Val) (sid : Nat) :
    ((sf.makeJaxpr σ args).1.2) sid = σ sid := by
  unfold SF.makeJaxpr
  cases hl : alook (sf.getArgCacheKey args) sf.stateTraces with
  | some v => simp only [hl]
  | none =>
    simp only [hl]
    cases hf : firstStateRefS (traceOutcome sf.prog sf.statics args σ).1 with
    | some s =>
      simp only [hf]
      exact traceOutcome_restore sf.prog sf.statics args σ sid
    | none =>
      simp only [hf]
      exact traceOutcome_restore sf.prog sf.statics args σ sid

/-- C2: a traced function whose return value contains a `State` cell at any
leaf (bare or nested) makes the trace fail with the fatal usage error,
every time it actually traces; it never silently succeeds. -/
theorem c2_state_return_rejected (sf : SF) (σ : Store) (args : List Val)
    (hret : hasStateLeaf (retOf sf.prog) = true)
    (hfresh : alook (sf.getArgCacheKey args) sf.stateTraces = none) :
    ∃ sid, (sf.makeJaxpr σ args).2 = .error (.stateReturn sid) := by
  have hsome : (firstStateRefR (retOf sf.prog)).isSome = true :=
    (hasStateLeaf_iff_firstStateRef _).mp hret
  obtain ⟨s, hs⟩ := Option.isSome_iff_exists.mp hsome
  have hfs : firstStateRefS (traceOutcome sf.prog sf.statics args σ).1 = some s := by
    unfold traceOutcome
    rw [firstStateRefS_traceProg]
    exact hs
  refine ⟨s, ?_⟩
  simp only [SF.makeJaxpr, hfresh, hfs]

/-- C4: when the cache key already has a stored entry, `make_jaxpr` is a
no-op: the wrapper (all four tables) and the store are returned unchanged
and no fresh trace is performed (the user function is not re-executed). -/
theorem c4_make_jaxpr_idempotent (sf : SF) (σ : Store) (args : List Val)
    (hcached : (alook (sf.getArgCacheKey args) sf.stateTraces).isSome = true) :
    sf.makeJaxpr σ args = ((sf, σ), .ok false) := by
  obtain ⟨v, hv⟩ := Option.isSome_iff_exists.mp hcached
  simp only [SF.makeJaxpr, hv]

/-- C5: if tracing fails for a previously absent key, the failure is
re-raised unchanged, the wrapper is left exactly as it was, and no cache
table contains an entry for that key. -/
theorem c5_trace_failure_rollback (sf : SF) (σ : Store) (args : List Val)
    (hret : hasStateLeaf (retOf sf.prog) = true)
    (h1 : alook (sf.getArgCacheKey args) sf.stateTraces = none)
    (h2 : alook (sf.getArgCacheKey args) sf.jaxprs = none)
    (h3 : alook (sf.getArgCacheKey args) sf.outShapes = none)
    (h4 : alook (sf.getArgCacheKey args) sf.outTrees = none) :
    (sf.makeJaxpr σ args).1.1 = sf ∧
    (∃ sid, (sf.makeJaxpr σ args).2 = .error (.stateReturn sid)) ∧
    alook (sf.getArgCacheKey args) ((sf.makeJaxpr σ args).1.1).stateTraces = none ∧
    alook (sf.getArgCacheKey args) ((sf.makeJaxpr σ args).1.1).jaxprs = none ∧
    alook (sf.getArgCacheKey args) ((sf.makeJaxpr σ args).1.1).outShapes = none ∧
    alook (sf.getArgCacheKey args) ((sf.makeJaxpr σ args).1.1).outTrees = none := by
  have hsome : (firstStateRefR (retOf sf.prog)).isSome = true :=
    (hasStateLeaf_iff_firstStateRef _).mp hret
  obtain ⟨s, hs⟩ := Option.isSome_iff_exists.mp hsome
  have hfs : firstStateRefS (traceOutcome sf.prog sf.statics args σ).1 = some s := by
    unfold traceOutcome
    rw [firstStateRefS_traceProg]
    exact hs
  have hrun : sf.makeJaxpr σ args =
      ((sf, restore (traceOutcome sf.prog sf.statics args σ).2),
       .error (.stateReturn s)) := by
    simp only [SF.makeJaxpr, h1, hfs]
  rw [hrun]
  exact ⟨rfl, ⟨s, rfl⟩, h1, h2, h3, h4⟩

/-- C7: `_make_jaxpr` applied to a target that is a staticmethod object,
not callable, or a generator function rejects it with a `TypeError` before
any tracing begins (the result is the same for every candidate body). -/
theorem c7_callable_rejected (meta : PyFun)
    (hbad : meta.isStaticmethodObj = true ∨ meta.callableFlag = false ∨
      meta.isGeneratorFunction = true) :
    ∀ (statics : List Nat) (p : Prog) (σ : Store) (args : List Val),
      ∃ e, mkJaxprDirect meta statics p σ args = .error e ∧
        (e = .typeErrorStaticmethod ∨ e = .typeErrorNotCallable ∨
         e = .typeErrorGenerator) := by
  intro statics p σ args
  have hcc : ∃ e, checkCallable meta = .error e ∧
      (e = .typeErrorStaticmethod ∨ e = .typeErrorNotCallable ∨
       e = .typeErrorGenerator) := by
    by_cases hsm : meta.isStaticmethodObj = true
    · exact ⟨.typeErrorStaticmethod, by simp [checkCallable, hsm], Or.inl rfl⟩
    · rw [Bool.not_eq_true] at hsm
      by_cases hcf : meta.callableFlag = true
      · have hgen : meta.isGeneratorFunction = true := by
          rcases hbad with h | h | h
          · rw [hsm] at h
            exact absurd h (by simp)
          · rw [h] at hcf
            exact absurd hcf (by simp)
          · exact h
        exact ⟨.typeErrorGenerator, by simp [checkCallable, hsm, hcf, hgen],
          Or.inr (Or.inr rfl)⟩
      · rw [Bool.not_eq_true] at hcf
        exact ⟨.typeErrorNotCallable, by simp [checkCallable, hsm, hcf],
          Or.inr (Or.inl rfl)⟩
  obtain ⟨e, he, hmem⟩ := hcc
  refine ⟨e, ?_, hmem⟩
  simp only [mkJaxprDirect, he]

/-- C8: under the static-only cache-key policy (`cache_type=None`, the
default), when every designated static position exists in the call, the
computed cache key is exactly the tuple of the values at the designated
static-argument positions, in the order the positions are designated. -/
theorem c8_static_only_cache_key (sf : SF) (args : List Val)
    (hct : sf.cacheType = CacheType.none)
    (hrange : ∀ i ∈ sf.statics, i < args.length) :
    sf.getArgCacheKey args = .staticOnly (sf.statics.map (fun i => args.getD i 0)) := by
  unfold SF.getArgCacheKey
  rw [hct]
  show CacheKey.staticOnly _ = CacheKey.staticOnly _
  congr 1
  have hgen : ∀ (l : List Nat), (∀ i ∈ l, i < args.length) →
      l.filterMap (fun i => args[i]?) = l.map (fun i => args.getD i 0) := by
    intro l
    induction l with
    | nil => intro _; rfl
    | cons a rest ih =>
      intro hl
      have ha : a < args.length := hl a (by simp)
      have hsome : args[a]? = some (args.getD a 0) := by
        rw [List.getElem?_eq_getElem ha, List.getD_eq_getElem args 0 ha]
      simp only [List.filterMap_cons, hsome, List.map_cons]
      rw [ih (fun i hi => hl i (List.mem_cons_of_mem _ hi))]
  exact hgen sf.statics hrange

theorem alook_cons_ne {β : Type} (k k' : CacheKey) (v : β) (l : List (CacheKey × β))
    (h : k ≠ k') : alook k ((k', v) :: l) = alook k l := by
  show (if k = k' then some v else alook k l) = alook k l
  rw [if_neg h]

/-- C9 (amended): with an unknown cache key, `get_jaxpr`, `get_out_shapes`,
`get_out_treedef` and `get_states` fail with the explicit "not traced for
this key" error, while `get_read_states` and `get_write_states` fail with
a bare `KeyError` from the raw dict lookup (still never silently
succeeding). -/
theorem c9_accessor_unknown_key_errors (sf : SF) (key : CacheKey)
    (h1 : alook key sf.jaxprs = none) (h2 : alook key sf.outShapes = none)
    (h3 : alook key sf.outTrees = none) (h4 : alook key sf.stateTraces = none) :
    sf.getJaxpr key = .error (.notTraced key) ∧
    sf.getOutShapes key = .error (.notTraced key) ∧
    sf.getOutTreedef key = .error (.notTraced key) ∧
    sf.getStates key = .error (.notTraced key) ∧
    sf.getReadStates key = .error (.keyError key) ∧
    sf.getWriteStates key = .error (.keyError key) := by
  refine ⟨?_, ?_, ?_, ?_, ?_, ?_⟩
  · simp only [SF.getJaxpr, h1]
  · simp only [SF.getOutShapes, h2]
  · simp only [SF.getOutTreedef, h3]
  · simp only [SF.getStates, h4]
  · simp only [SF.getReadStates, h4]
  · simp only [SF.getWriteStates, h4]

/-- C9 (counterexample): `get_read_states` invoked with a cache key that
has no stored trace raises the bare `KeyError`, not the "not traced for
this key" error the claim asserts for every accessor. -/
theorem c9_counterexample :
    (SF.init (.ret .unit) [] CacheType.none).getReadStates (.staticOnly []) =
      .error (.keyError (.staticOnly [])) ∧
    Err.keyError (.staticOnly []) ≠ Err.notTraced (.staticOnly []) := by
  exact ⟨rfl, by decide⟩

/-- C10: after any public operation completes, the four cache tables
(`_jaxpr`, `_out_shapes`, `_jaxpr_out_tree`, `_state_trace`) contain
exactly the same set of cache keys. -/
theorem c10_cache_tables_aligned (sf : SF) (h : ReachableSF sf) : Aligned sf := by
  induction h with
  | init p statics ct =>
    intro k
    exact ⟨rfl, rfl, rfl⟩
  | trace sf σ args _ ih =>
    unfold SF.makeJaxpr
    cases hl : alook (sf.getArgCacheKey args) sf.stateTraces with
    | some v =>
      simp only [hl]
      exact ih
    | none =>
      simp only [hl]
      cases hf : firstStateRefS (traceOutcome sf.prog sf.statics args σ).1 with
      | some s =>
        simp only [hf]
        exact ih
      | none =>
        simp only [hf]
        intro k
        by_cases hk : k = sf.getArgCacheKey args
        · subst hk
          simp only [alook_cons_self]
          exact ⟨rfl, rfl, rfl⟩
        · simp only [alook_cons_ne _ _ _ _ hk]
          exact ih k
  | clear sf _ _ =>
    intro k
    exact ⟨rfl, rfl, rfl⟩

/-- C3: after tracing once, each `jaxpr_call_auto` reads the current values
of the recorded cells, replays, and writes the new values back into the
same cells: with cell 0 initialized to `v` and `f(x) = s.set(x + s.get())`,
one automatic replay at `x` leaves the cell at `x + v` and a second leaves
it at `x + (x + v)` — the write-back is live, not snapshotted. -/
theorem c3_replay_auto_writeback (v x : Val) :
    ∃ σ2 out2 σ3 out3,
      (((SF.init pScenario [] CacheType.none).makeJaxpr (fun _ => .conc v) [x]).1.1).jaxprCallAuto
          (((SF.init pScenario [] CacheType.none).makeJaxpr (fun _ => .conc v) [x]).1.2) [x] =
        .ok (σ2, out2) ∧
      σ2 0 = .conc (x + v) ∧
      (((SF.init pScenario [] CacheType.none).makeJaxpr (fun _ => .conc v) [x]).1.1).jaxprCallAuto
          σ2 [x] = .ok (σ3, out3) ∧
      σ3 0 = .conc (x + (x + v)) := by
  exact ⟨_, _, _, _, rfl, rfl, rfl, rfl⟩

/-- Witness for C1: the round trip at cell value 7 and argument 5. -/
theorem c1_witness :
    ∃ out, toPTree (runProg [5] pRoundTrip (fun _ => 7)).1 = some out ∧
      (((SF.init pRoundTrip [] CacheType.none).makeJaxpr (fun _ => .conc 10) [5]).1.1).jaxprCall
          [7] [5] = .ok ([0].map (runProg [5] pRoundTrip (fun _ => 7)).2, out) :=
  c1_trace_replay_roundtrip pRoundTrip [] [5] (fun _ => .conc 10) (fun _ => 7) [7] [0]
    (by decide) (by decide) rfl (by decide)
    (by
      intro j hj
      have hj0 : j = 0 := by
        simp only [List.length_singleton] at hj
        omega
      subst hj0
      rfl)

/-- Witness for C2: tracing a function that returns a `State` cell inside a
pair fails with the usage error. -/
theorem c2_witness :
    ∃ sid, ((SF.init pStateReturn [] CacheType.none).makeJaxpr
      (fun _ => .conc 0) []).2 = .error (.stateReturn sid) :=
  c2_state_return_rejected (SF.init pStateReturn [] CacheType.none)
    (fun _ => .conc 0) [] (by decide) rfl

/-- Witness for C4: `make_jaxpr` on an already-cached key is a no-op. -/
theorem c4_witness :
    sfCached.makeJaxpr (fun _ => .conc 0) [] =
      ((sfCached, fun _ => .conc 0), .ok false) :=
  c4_make_jaxpr_idempotent sfCached (fun _ => .conc 0) [] (by decide)

/-- Witness for C5: a failing trace rolls back and re-raises at a concrete
wrapper. -/
theorem c5_witness :
    (((SF.init pStateReturn [] CacheType.none).makeJaxpr (fun _ => .conc 0) []).1.1 =
      SF.init pStateReturn [] CacheType.none) ∧
    (∃ sid, ((SF.init pStateReturn [] CacheType.none).makeJaxpr
      (fun _ => .conc 0) []).2 = .error (.stateReturn sid)) ∧
    alook ((SF.init pStateReturn [] CacheType.none).getArgCacheKey [])
      ((((SF.init pStateReturn [] CacheType.none).makeJaxpr
        (fun _ => .conc 0) []).1.1).stateTraces) = none ∧
    alook ((SF.init pStateReturn [] CacheType.none).getArgCacheKey [])
      ((((SF.init pStateReturn [] CacheType.none).makeJaxpr
        (fun _ => .conc 0) []).1.1).jaxprs) = none ∧
    alook ((SF.init pStateReturn [] CacheType.none).getArgCacheKey [])
      ((((SF.init pStateReturn [] CacheType.none).makeJaxpr
        (fun _ => .conc 0) []).1.1).outShapes) = none ∧
    alook ((SF.init pStateReturn [] CacheType.none).getArgCacheKey [])
      ((((SF.init pStateReturn [] CacheType.none).makeJaxpr
        (fun _ => .conc 0) []).1.1).outTrees) = none :=
  c5_trace_failure_rollback (SF.init pStateReturn [] CacheType.none)
    (fun _ => .conc 0) [] (by decide) rfl rfl rfl rfl

/-- Witness for C7: a generator-function target is rejected with a
`TypeError`. -/
theorem c7_witness :
    ∃ e, mkJaxprDirect badGenFun [] (.ret .unit) (fun _ => .conc 0) [] = .error e ∧
      (e = .typeErrorStaticmethod ∨ e = .typeErrorNotCallable ∨
       e = .typeErrorGenerator) :=
  c7_callable_rejected badGenFun (Or.inr (Or.inr rfl)) [] (.ret .unit)
    (fun _ => .conc 0) []

/-- Witness for C8: with static positions `[1, 0]` and call `(10, 20)` the
key is `(20, 10)`. -/
theorem c8_witness :
    (SF.init (.ret .unit) [1, 0] CacheType.none).getArgCacheKey [10, 20] =
      .staticOnly [20, 10] := by
  rw [c8_static_only_cache_key _ _ rfl (by decide)]
  rfl

/-- Witness for C9 (amended): the six accessors at an untraced wrapper. -/
theorem c9_witness :
    (SF.init (.ret .unit) [] CacheType.none).getJaxpr (.staticOnly []) =
      .error (.notTraced (.staticOnly [])) ∧
    (SF.init (.ret .unit) [] CacheType.none).getOutShapes (.staticOnly []) =
      .error (.notTraced (.staticOnly [])) ∧
    (SF.init (.ret .unit) [] CacheType.none).getOutTreedef (.staticOnly []) =
      .error (.notTraced (.staticOnly [])) ∧
    (SF.init (.ret .unit) [] CacheType.none).getStates (.staticOnly []) =
      .error (.notTraced (.staticOnly [])) ∧
    (SF.init (.ret .unit) [] CacheType.none).getReadStates (.staticOnly []) =
      .error (.keyError (.staticOnly [])) ∧
    (SF.init (.ret .unit) [] CacheType.none).getWriteStates (.staticOnly []) =
      .error (.keyError (.staticOnly [])) :=
  c9_accessor_unknown_key_errors (SF.init (.ret .unit) [] CacheType.none)
    (.staticOnly []) rfl rfl rfl rfl

/-- Witness for C10: a freshly constructed wrapper has aligned tables. -/
theorem c10_witness : Aligned (SF.init (.ret .unit) [] CacheType.none) :=
  c10_cache_tables_aligned _ (ReachableSF.init (.ret .unit) [] CacheType.none)
